import Mathlib

/-!
Verification of the protocol engine of the rust-imap client library.

The development shallowly embeds `src/client.rs` and `src/parse.rs`: byte
streams become lists of characters, the buffered transport becomes an
explicit `Connection` record holding the unread server bytes, the log of
bytes written to the wire, and the tag counter.  Fallible operations return
an `Outcome`, with a separate `panicked` result for the one assertion in
`read_response_onto`.  The response classifier (`imap_proto::parse_response`,
an external crate) is modelled from the specification of the Response
Classifier: one accumulated chunk is classified as a tagged terminator, a
complete non-terminator response, "need more data" (a `{N}` literal announces
more bytes than buffered), or malformed.
-/

namespace Imap

/-- Carriage-return character (the constant `CR` of src/client.rs). -/
def CR : Char := '\r'

/-- Line-feed character (the constant `LF` of src/client.rs). -/
def LF : Char := '\n'

/-- Left curly brace, written by code point to keep it out of string literals. -/
def lbrace : Char := Char.ofNat 123

/-- Right curly brace, written by code point. -/
def rbrace : Char := Char.ofNat 125

/-- Wire bytes, modelled as lists of characters. -/
abbrev Bytes := List Char

/-- One `readline` on the buffered stream: consume bytes up to and including
the first LF (`BufRead::read_until(LF)`); with no LF buffered the stream
returns everything up to end of input.  `none` models a read of zero bytes. -/
def readline : Bytes → Option (Bytes × Bytes)
  | [] => none
  | c :: cs =>
    if c = LF then some ([c], cs)
    else
      match readline cs with
      | some (l, r) => some (c :: l, r)
      | none => some (c :: cs, [])

/-- Split a chunk at its first LF, keeping the LF on the left; `none` when the
chunk holds no complete physical line yet. -/
def splitAtLF : Bytes → Option (Bytes × Bytes)
  | [] => none
  | c :: cs =>
    if c = LF then some ([c], cs)
    else
      match splitAtLF cs with
      | some (l, r) => some (c :: l, r)
      | none => none

/-- Decimal value of a digit string. -/
def digitsVal (ds : Bytes) : Nat :=
  ds.foldl (fun acc c => acc * 10 + (c.toNat - 48)) 0

/-- Modelled from the spec: a literal token at the end of a physical line.
A line ending in an open brace, one or more digits, a close brace and CRLF
announces that many following raw bytes before the line logically continues
(spec section 6, "Literal tokens"). -/
def literalLen (line : Bytes) : Option Nat :=
  match line.reverse with
  | a :: b :: c :: rest =>
    if a = LF ∧ b = CR ∧ c = rbrace then
      let ds := rest.takeWhile Char.isDigit
      match ds, rest.drop ds.length with
      | [], _ => none
      | _ :: _, d :: _ => if d = lbrace then some (digitsVal ds.reverse) else none
      | _ :: _, [] => none
    else none
  | _ => none

/-- One logical line of a response chunk: physical lines glued together
through their announced literal payloads.  Returns the logical line and the
unconsumed remainder, or `none` when the chunk is still incomplete.  Fuelled
structural recursion; the wrapper `takeLogical` supplies adequate fuel. -/
def takeLogicalF : Nat → Bytes → Option (Bytes × Bytes)
  | 0, _ => none
  | fuel + 1, c =>
    match splitAtLF c with
    | none => none
    | some (line, rest) =>
      match literalLen line with
      | none => some (line, rest)
      | some n =>
        if n ≤ rest.length then
          match takeLogicalF fuel (rest.drop n) with
          | none => none
          | some (l2, r2) => some (line ++ rest.take n ++ l2, r2)
        else none

/-- One logical line of a response chunk (see `takeLogicalF`). -/
def takeLogical (c : Bytes) : Option (Bytes × Bytes) :=
  takeLogicalF (c.length + 1) c

/-- Status of a tagged terminator line (`imap_proto::Status`). -/
inductive Status where
  | ok
  | no
  | bad
  | preauth
  | bye
deriving DecidableEq

/-- The status word of a terminator line. -/
def statusOfWord (w : Bytes) : Option Status :=
  if w = ("OK").data then some .ok
  else if w = ("NO").data then some .no
  else if w = ("BAD").data then some .bad
  else if w = ("PREAUTH").data then some .preauth
  else if w = ("BYE").data then some .bye
  else none

/-- Parse the inside of a terminator line (CRLF already stripped):
`<tag> <STATUS>[ <text>]`.  Returns tag, status and the optional
explanatory text. -/
def parseDoneCore (core : Bytes) : Option (Bytes × Status × Option Bytes) :=
  let tg := core.takeWhile (fun c => c ≠ ' ')
  let rest := core.dropWhile (fun c => c ≠ ' ')
  match tg, rest with
  | [], _ => none
  | _ :: _, [] => none
  | _ :: _, _ :: r2 =>
    let w := r2.takeWhile (fun c => c ≠ ' ')
    let after := r2.dropWhile (fun c => c ≠ ' ')
    match statusOfWord w with
    | none => none
    | some st =>
      match after with
      | [] => some (tg, st, none)
      | _ :: t => some (tg, st, some t)

/-- Parse a complete logical line as a tagged terminator
`<tag><SP>{OK|NO|BAD|PREAUTH|BYE}<SP>[text]<CRLF>`. -/
def parseDone (line : Bytes) : Option (Bytes × Status × Option Bytes) :=
  match line.reverse with
  | a :: b :: rest =>
    if a = LF ∧ b = CR then parseDoneCore rest.reverse else none
  | _ => none

/-- Result of classifying one accumulated response chunk
(spec section 4.2, Response Classifier). -/
inductive Classified where
  | done (tag : Bytes) (status : Status) (info : Option Bytes)
  | cont
  | needMore
  | malformed
deriving DecidableEq

/-- Modelled from the spec: `imap_proto::parse_response` as used by
`read_response_onto` — the Response Classifier of spec section 4.2.  A chunk
whose first logical line is still incomplete (in particular when a `{N}`
literal announces more bytes than are buffered) classifies as `needMore`
(`nom::Err::Incomplete`); a complete untagged (`*`-prefixed) or continuation
(`+`-prefixed) response classifies as `cont` (a parse that succeeds with a
non-`Done` response); a tagged terminator classifies as `done` with its tag,
status and optional text; anything else is `malformed` (a nom error). -/
def classify (chunk : Bytes) : Classified :=
  match takeLogical chunk with
  | none => .needMore
  | some (line, _) =>
    match line with
    | [] => .malformed
    | c :: _ =>
      if c = '*' then .cont
      else if c = '+' then .cont
      else
        match parseDone line with
        | some (t, st, info) => .done t st info
        | none => .malformed

/-- The error type of src/error.rs, restricted to the variants the protocol
engine constructs. -/
inductive Error where
  | validate (c : Char)
  | badResponse (expl : Bytes)
  | noResponse (expl : Bytes)
  | connectionLost
  | parseInvalid (data : Bytes)
  | parseAuth (line : Bytes)
  | append
deriving DecidableEq

/-- Result of an engine operation: success, a returned `Error`, or a panic
(the failed assertion in `read_response_onto`). -/
inductive Outcome (α : Type) where
  | ok (a : α)
  | fail (e : Error)
  | panicked
deriving DecidableEq

/-- The placeholder explanation of src/client.rs for a BAD/NO terminator that
carries no text. -/
def defaultExpl : Bytes := ("no explanation given").data

/-- What one loop iteration of `read_response_onto` does after classifying
`data[lineStart..]`: either break out of the loop with a result, or continue
with the `continue_from` offset for the next iteration. -/
inductive StepRes where
  | finish (r : Outcome Bytes)
  | again (contFrom : Option Nat)
deriving DecidableEq

/-- The classification step of the `read_response_onto` loop in src/client.rs:
a `Done` response has its tag checked against the in-flight tag by
`assert_eq!` (mismatch panics); `Ok` truncates the accumulated data at the
terminator line and succeeds; `Bad`/`No` fail with the explanatory text or
the placeholder; any other terminator status, or a parse error, fails with
`Parse(Invalid)` carrying the accumulated data; an `Incomplete` parse retries
from the same offset; any other successful parse continues with a fresh
offset. -/
def rroStep (data : Bytes) (lineStart : Nat) (matchTag : Bytes) : StepRes :=
  match classify (data.drop lineStart) with
  | .done tg st info =>
    if tg = matchTag then
      match st with
      | .ok => .finish (.ok (data.take lineStart))
      | .bad => .finish (.fail (.badResponse (info.getD defaultExpl)))
      | .no => .finish (.fail (.noResponse (info.getD defaultExpl)))
      | _ => .finish (.fail (.parseInvalid data))
    else .finish .panicked
  | .cont => .again none
  | .needMore => .again (some lineStart)
  | .malformed => .finish (.fail (.parseInvalid data))

/-- The read loop of `read_response_onto` from the iteration that reads a
line onward: read one line into the buffer, classify from the retry offset
(or from the start of the new line), and either break or iterate.  Result is
the outcome together with the unread remainder of the stream.  Fuelled
structural recursion; each iteration consumes at least one byte, and the
wrappers supply adequate fuel. -/
def rroLoopF : Nat → Bytes → Bytes → Option Nat → Bytes → Outcome Bytes × Bytes
  | 0, input, _, _, _ => (.fail .connectionLost, input)
  | fuel + 1, input, data, contFrom, matchTag =>
    match readline input with
    | none => (.fail .connectionLost, input)
    | some (line, rest) =>
      let data2 := data ++ line
      match rroStep data2 (contFrom.getD data.length) matchTag with
      | .finish r => (r, rest)
      | .again cf => rroLoopF fuel rest data2 cf matchTag

/-- The read loop of `read_response_onto` with adequate fuel. -/
def rroLoop (input data : Bytes) (contFrom : Option Nat) (matchTag : Bytes) :
    Outcome Bytes × Bytes :=
  rroLoopF (input.length + 1) input data contFrom matchTag

/-- `Connection::read_response_onto` from src/client.rs: with `data` nonempty
the first iteration classifies the already-buffered bytes (`try_first`);
afterwards the loop reads lines and classifies until a terminator for
`matchTag` breaks it.  On success the result carries the accumulated bytes
with the terminator line excluded. -/
def readResponseOnto (input data matchTag : Bytes) : Outcome Bytes × Bytes :=
  if data.isEmpty then rroLoop input data none matchTag
  else
    match rroStep data 0 matchTag with
    | .finish r => (r, input)
    | .again cf => rroLoop input data cf matchTag

/-- The `Connection` of src/client.rs: the buffered stream (split into the
unread server bytes and the log of bytes written to the wire) and the tag
counter.  The debug flag only mirrors traffic to stdout and is omitted. -/
structure Connection where
  input : Bytes
  written : Bytes
  tag : Nat
deriving DecidableEq

/-- The `TAG_PREFIX` constant of src/client.rs. -/
def TAG_PREFIX : String := "a"

/-- The `INITIAL_TAG` constant of src/client.rs. -/
def INITIAL_TAG : Nat := 0

/-- Rendering of a tag value on the wire. -/
def tagStr (n : Nat) : String := TAG_PREFIX ++ toString n

/-- `Connection::write_line`: the buffer followed by CRLF, written and
flushed. -/
def writeLineS (s : Connection) (buf : Bytes) : Connection :=
  ⟨s.input, s.written ++ buf ++ [CR, LF], s.tag⟩

/-- `Connection::readline`: one line (up to and including LF) from the
stream; `none` models the zero-byte read that becomes `ConnectionLost`. -/
def readlineS (s : Connection) : Option (Bytes × Connection) :=
  match readline s.input with
  | none => none
  | some (l, rest) => some (l, ⟨rest, s.written, s.tag⟩)

/-- `Connection::create_command`: increment the tag counter and prepend the
rendered tag and a space to the command body. -/
def createCommand (s : Connection) (command : String) : Connection × String :=
  (⟨s.input, s.written, s.tag + 1⟩, tagStr (s.tag + 1) ++ " " ++ command)

/-- `Connection::run_command`: create the tagged command and write it as a
line. -/
def runCommand (s : Connection) (command : String) : Connection :=
  let p := createCommand s command
  writeLineS p.1 p.2.data

/-- `Connection::read_response_onto` lifted to the connection: the in-flight
tag is the rendered current counter value. -/
def readResponseOntoS (s : Connection) (data : Bytes) : Outcome Bytes × Connection :=
  let p := readResponseOnto s.input data ((tagStr s.tag).data)
  (p.1, ⟨p.2, s.written, s.tag⟩)

/-- `Connection::read_response`: read a response into a fresh buffer. -/
def readResponseS (s : Connection) : Outcome Bytes × Connection :=
  readResponseOntoS s []

/-- Discard the data of a successful response (`.map(|_| ())`). -/
def discardData : Outcome Bytes → Outcome Unit
  | .ok _ => .ok ()
  | .fail e => .fail e
  | .panicked => .panicked

/-- `Connection::run_command_and_read_response`. -/
def runCommandAndReadResponse (s : Connection) (command : String) :
    Outcome Bytes × Connection :=
  readResponseS (runCommand s command)

/-- `Connection::run_command_and_check_ok`. -/
def runCommandAndCheckOk (s : Connection) (command : String) :
    Outcome Unit × Connection :=
  let p := runCommandAndReadResponse s command
  (discardData p.1, p.2)

/-- One pass of `str::replace`: every occurrence of the character `a`
becomes the replacement string `r`. -/
def replAll (a : Char) (r : Bytes) : Bytes → Bytes
  | [] => []
  | c :: cs => (if c = a then r else [c]) ++ replAll a r cs

/-- The `quote!` macro of src/client.rs: double every backslash, escape every
double quote, and wrap the result in double quotes. -/
def quoteStr (x : String) : String :=
  String.mk ('"' :: replAll '"' ['\\', '"'] (replAll '\\' ['\\', '\\'] x.data) ++ ['"'])

/-- `validate_str` from src/client.rs: quote the value, then reject it when
the quoted string contains LF (first) or CR. -/
def validate_str (value : String) : Except Error String :=
  let quoted := quoteStr value
  if '\n' ∈ quoted.data then .error (.validate '\n')
  else if '\r' ∈ quoted.data then .error (.validate '\r')
  else .ok quoted

/-- The unauthenticated `Client` of src/client.rs (the unsolicited-response
channel of `Session` carries no protocol state and is omitted). -/
structure Client where
  conn : Connection
deriving DecidableEq

/-- The authenticated `Session` of src/client.rs. -/
structure Session where
  conn : Connection
deriving DecidableEq

/-- `Client::new` over a fresh stream. -/
def Client.new (input : Bytes) : Client :=
  ⟨⟨input, [], INITIAL_TAG⟩⟩

/-- `Session::select` through `run_command_and_read_response`; the
`parse_mailbox` decoding of the accumulated bytes into a `Mailbox` is beyond
the claims and omitted, the raw accumulated response is returned instead. -/
def Session.select (s : Session) (mailbox_name : String) : Outcome Bytes × Session :=
  match validate_str mailbox_name with
  | .error e => (.fail e, s)
  | .ok q =>
    let p := runCommandAndReadResponse s.conn ("SELECT " ++ q)
    (p.1, ⟨p.2⟩)

/-- `Session::examine` (see `Session.select`). -/
def Session.examine (s : Session) (mailbox_name : String) : Outcome Bytes × Session :=
  match validate_str mailbox_name with
  | .error e => (.fail e, s)
  | .ok q =>
    let p := runCommandAndReadResponse s.conn ("EXAMINE " ++ q)
    (p.1, ⟨p.2⟩)

/-- `Session::status` (see `Session.select`). -/
def Session.status (s : Session) (mailbox_name status_data_items : String) :
    Outcome Bytes × Session :=
  match validate_str mailbox_name with
  | .error e => (.fail e, s)
  | .ok q =>
    let p := runCommandAndReadResponse s.conn ("STATUS " ++ q ++ " " ++ status_data_items)
    (p.1, ⟨p.2⟩)

/-- `Session::create`. -/
def Session.create (s : Session) (mailbox_name : String) : Outcome Unit × Session :=
  match validate_str mailbox_name with
  | .error e => (.fail e, s)
  | .ok q =>
    let p := runCommandAndCheckOk s.conn ("CREATE " ++ q)
    (p.1, ⟨p.2⟩)

/-- `Session::delete`. -/
def Session.delete (s : Session) (mailbox_name : String) : Outcome Unit × Session :=
  match validate_str mailbox_name with
  | .error e => (.fail e, s)
  | .ok q =>
    let p := runCommandAndCheckOk s.conn ("DELETE " ++ q)
    (p.1, ⟨p.2⟩)

/-- `Session::mv`: the destination mailbox name is validated and quoted. -/
def Session.mv (s : Session) (sequence_set mailbox_name : String) :
    Outcome Unit × Session :=
  match validate_str mailbox_name with
  | .error e => (.fail e, s)
  | .ok q =>
    let p := runCommandAndCheckOk s.conn ("MOVE " ++ sequence_set ++ " " ++ q)
    (p.1, ⟨p.2⟩)

/-- `Session::uid_mv` (see `Session.mv`). -/
def Session.uid_mv (s : Session) (uid_set mailbox_name : String) :
    Outcome Unit × Session :=
  match validate_str mailbox_name with
  | .error e => (.fail e, s)
  | .ok q =>
    let p := runCommandAndCheckOk s.conn ("UID MOVE " ++ uid_set ++ " " ++ q)
    (p.1, ⟨p.2⟩)

/-- `Session::copy`: the destination mailbox name is interpolated verbatim,
with no validation and no quoting. -/
def Session.copy (s : Session) (sequence_set mailbox_name : String) :
    Outcome Unit × Session :=
  let p := runCommandAndCheckOk s.conn ("COPY " ++ sequence_set ++ " " ++ mailbox_name)
  (p.1, ⟨p.2⟩)

/-- `Session::uid_copy` (see `Session.copy`). -/
def Session.uid_copy (s : Session) (uid_set mailbox_name : String) :
    Outcome Unit × Session :=
  let p := runCommandAndCheckOk s.conn ("UID COPY " ++ uid_set ++ " " ++ mailbox_name)
  (p.1, ⟨p.2⟩)

/-- The command header written by `Session::append`:
`APPEND "<folder>" {<length>}` (the folder is interpolated into the quotes
verbatim). -/
def appendCmd (folder : String) (n : Nat) : String :=
  "APPEND \"" ++ folder ++ "\" " ++ lbrace.toString ++ toString n ++ rbrace.toString

/-- `Session::append` from src/client.rs: write the header with the declared
literal length, read exactly one line; unless it begins with `+`, fail with
`Error::Append` and write nothing further; otherwise write the content bytes
plus CRLF and read the tagged response. -/
def Session.append (s : Session) (folder : String) (content : Bytes) :
    Outcome Unit × Session :=
  let c1 := runCommand s.conn (appendCmd folder content.length)
  match readline c1.input with
  | none => (.fail .connectionLost, ⟨c1⟩)
  | some (line, rest) =>
    if line.head? = some '+' then
      let c2 : Connection := ⟨rest, c1.written ++ content ++ [CR, LF], c1.tag⟩
      let p := readResponseS c2
      (discardData p.1, ⟨p.2⟩)
    else (.fail Error.append, ⟨⟨rest, c1.written, c1.tag⟩⟩)

/-- Result of `Client::login` / `Client::authenticate`: on success the
`Client` is consumed and a `Session` produced; on failure the error comes
paired with the `Client`. -/
inductive AuthResult where
  | ok (s : Session)
  | fail (e : Error) (c : Client)
  | panicked
deriving DecidableEq

/-- `Client::login` from src/client.rs: validate and quote both credentials
(failing before any write), issue `LOGIN <user> <pass>`, and require an OK
terminator; every failure returns the error paired with the client. -/
def Client.login (c : Client) (username password : String) : AuthResult :=
  match validate_str username with
  | .error e => .fail e c
  | .ok u =>
    match validate_str password with
    | .error e => .fail e c
    | .ok p =>
      let q := runCommandAndReadResponse c.conn ("LOGIN " ++ u ++ " " ++ p)
      match q.1 with
      | .ok _ => .ok ⟨q.2⟩
      | .fail e => .fail e ⟨q.2⟩
      | .panicked => .panicked

/-- The capture of the regex of `parse_authenticate_response` in
src/parse.rs.  The pattern is written `^+(.*)\r\n`: the escape before the
plus sign is missing, so the plus quantifies the start anchor and the
pattern is equivalent to `^(.*)\r\n`.  Since `.` matches every character but
LF, a match forces the capture to be everything before the line's first LF,
which must be immediately preceded by CR; the continuation marker is NOT
stripped.  (The library's own `authenticate` test and the bundled gmail
example only pass because their authenticators ignore the payload.) -/
def authCapture : Bytes → Option Bytes
  | [] => none
  | [_] => none
  | c :: d :: rest =>
    if c = CR ∧ d = LF then some []
    else if c = LF then none
    else
      match authCapture (d :: rest) with
      | some p => some (c :: p)
      | none => none

/-- `parse_authenticate_response` from src/parse.rs: the first capture of
the regex, or `Parse(Authentication)` carrying the line when nothing
matches. -/
def parse_authenticate_response (line : Bytes) : Except Error Bytes :=
  match authCapture line with
  | some d => .ok d
  | none => .error (.parseAuth line)

/-- `Client::do_auth_handshake` from src/client.rs: read one line; a
`+`-prefixed line has its payload extracted and handed to the
authenticator, whose response is written back as a line, and the loop
continues; any other line is fed to `read_response_onto` (with the line as
already-buffered data) and an OK terminator yields the `Session`.  Fuelled
structural recursion; each iteration consumes at least one byte. -/
def doAuthHandshake : Nat → Connection → (Bytes → Bytes) → AuthResult
  | 0, conn, _ => .fail .connectionLost ⟨conn⟩
  | fuel + 1, conn, authenticator =>
    match readlineS conn with
    | none => .fail .connectionLost ⟨conn⟩
    | some (line, conn2) =>
      if line.head? = some '+' then
        match parse_authenticate_response line with
        | .error e => .fail e ⟨conn2⟩
        | .ok dat =>
          let conn3 := writeLineS conn2 (authenticator dat)
          doAuthHandshake fuel conn3 authenticator
      else
        let p := readResponseOntoS conn2 line
        match p.1 with
        | .ok _ => .ok ⟨p.2⟩
        | .fail e => .fail e ⟨p.2⟩
        | .panicked => .panicked

/-- `Client::authenticate` from src/client.rs: issue
`AUTHENTICATE <auth_type>` and run the handshake loop. -/
def Client.authenticate (c : Client) (auth_type : String)
    (authenticator : Bytes → Bytes) : AuthResult :=
  let conn1 := runCommand c.conn ("AUTHENTICATE " ++ auth_type)
  doAuthHandshake (conn1.input.length + 1) conn1 authenticator

/-- The `IdleHandle` of src/client.rs: the borrowed session and the `done`
flag (keepalive duration omitted, it does not affect termination). -/
structure IdleHandle where
  session : Session
  done : Bool
deriving DecidableEq

/-- `IdleHandle::terminate`: when not yet done, mark done, write the untagged
`DONE` line and read the tagged response for the pending IDLE command;
otherwise do nothing and succeed. -/
def IdleHandle.terminate (h : IdleHandle) : Outcome Unit × IdleHandle :=
  if h.done then (.ok (), h)
  else
    let c1 := writeLineS h.session.conn (("DONE").data)
    let p := readResponseS c1
    (discardData p.1, ⟨⟨p.2⟩, true⟩)

/-- `Drop for IdleHandle`: terminate, discarding any error
(`self.terminate().is_ok()`). -/
def IdleHandle.dropRun (h : IdleHandle) : IdleHandle :=
  (IdleHandle.terminate h).2

instance {ε α : Type} [DecidableEq ε] [DecidableEq α] : DecidableEq (Except ε α) := fun x y =>
  match x, y with
  | .ok u, .ok v => if h : u = v then .isTrue (by rw [h]) else .isFalse (by simp [h])
  | .error u, .error v => if h : u = v then .isTrue (by rw [h]) else .isFalse (by simp [h])
  | .ok _, .error _ => .isFalse (by simp)
  | .error _, .ok _ => .isFalse (by simp)

/-- A complete physical line: some LF-free bytes followed by LF. -/
def physLine (l : Bytes) : Prop := ∃ s, l = s ++ [LF] ∧ LF ∉ s

theorem readline_append (s rest : Bytes) (h : LF ∉ s) :
    readline (s ++ LF :: rest) = some (s ++ [LF], rest) := by
  induction s with
  | nil => simp [readline]
  | cons c cs ih =>
    have hc : c ≠ LF := fun e => h (e ▸ List.mem_cons_self c cs)
    have h2 : LF ∉ cs := fun m => h (List.mem_cons_of_mem c m)
    simp [readline, hc, ih h2]

theorem readline_phys (l rest : Bytes) (h : physLine l) :
    readline (l ++ rest) = some (l, rest) := by
  obtain ⟨s, rfl, hs⟩ := h
  rw [List.append_assoc]
  exact readline_append s rest hs

theorem readline_split : ∀ {input l r : Bytes},
    readline input = some (l, r) → input = l ++ r ∧ l ≠ [] := by
  intro input
  induction input with
  | nil => intro l r h; simp [readline] at h
  | cons c cs ih =>
    intro l r h
    by_cases hc : c = LF
    · simp [readline, hc] at h
      obtain ⟨h1, h2⟩ := h
      subst h1; subst h2; subst hc
      exact ⟨rfl, by simp⟩
    · cases hm : readline cs with
      | some p =>
        obtain ⟨l2, r2⟩ := p
        simp [readline, hc, hm] at h
        obtain ⟨h1, h2⟩ := h
        subst h1; subst h2
        obtain ⟨e1, _⟩ := ih hm
        exact ⟨by rw [List.cons_append, ← e1], by simp⟩
      | none =>
        simp [readline, hc, hm] at h
        obtain ⟨h1, h2⟩ := h
        subst h1; subst h2
        exact ⟨by simp, by simp⟩

theorem rroLoopF_fuelIrrel : ∀ f1 f2 input data cf mt, input.length < f1 →
    input.length < f2 → rroLoopF f1 input data cf mt = rroLoopF f2 input data cf mt := by
  intro f1
  induction f1 with
  | zero => intro f2 input data cf mt h1 _; exact absurd h1 (Nat.not_lt_zero _)
  | succ a ih =>
    intro f2 input data cf mt h1 h2
    cases f2 with
    | zero => exact absurd h2 (Nat.not_lt_zero _)
    | succ b =>
      cases hr : readline input with
      | none => simp [rroLoopF, hr]
      | some p =>
        obtain ⟨l, r⟩ := p
        obtain ⟨he, hl⟩ := readline_split hr
        have hlen : r.length < input.length := by
          subst he
          have : 0 < l.length := List.length_pos.mpr hl
          simp only [List.length_append]
          omega
        cases hs : rroStep (data ++ l) (cf.getD data.length) mt with
        | finish res => simp [rroLoopF, hr, hs]
        | again cf2 =>
          simp only [rroLoopF, hr, hs]
          exact ih b r (data ++ l) cf2 mt (by omega) (by omega)

theorem rroLoop_finish {input data line rest matchTag : Bytes} {cf : Option Nat}
    {res : Outcome Bytes} (hr : readline input = some (line, rest))
    (hs : rroStep (data ++ line) (cf.getD data.length) matchTag = .finish res) :
    rroLoop input data cf matchTag = (res, rest) := by
  simp [rroLoop, rroLoopF, hr, hs]

theorem rroLoop_again {input data line rest matchTag : Bytes} {cf cf2 : Option Nat}
    (hr : readline input = some (line, rest))
    (hs : rroStep (data ++ line) (cf.getD data.length) matchTag = .again cf2) :
    rroLoop input data cf matchTag = rroLoop rest (data ++ line) cf2 matchTag := by
  obtain ⟨he, hl⟩ := readline_split hr
  have hlen : rest.length < input.length := by
    subst he
    have : 0 < line.length := List.length_pos.mpr hl
    simp only [List.length_append]
    omega
  simp only [rroLoop, rroLoopF, hr, hs]
  exact rroLoopF_fuelIrrel input.length (rest.length + 1) rest (data ++ line) cf2 matchTag
    hlen (Nat.lt_succ_self _)

/-- C1: in `read_response_onto`, an `Incomplete` classification at the current
line offset (a literal announcing more bytes than buffered) makes the loop
read further bytes and retry classification from exactly the same offset:
the reader does not advance past it. -/
theorem c1_incomplete_retries_same_offset (input data : Bytes) (contFrom : Option Nat)
    (matchTag line rest : Bytes)
    (hread : readline input = some (line, rest))
    (hinc : classify ((data ++ line).drop (contFrom.getD data.length)) = .needMore) :
    rroLoop input data contFrom matchTag =
      rroLoop rest (data ++ line) (some (contFrom.getD data.length)) matchTag :=
  rroLoop_again hread (by simp [rroStep, hinc])

/-- Witness for C1 at a FETCH response whose `{4}` literal payload spans a
CRLF: after the incomplete first line the loop retries from offset 0, and
the whole response (the literal treated as opaque bytes) is eventually
returned with the terminator excluded. -/
theorem c1_incomplete_retries_same_offset_witness :
    rroLoop (("* 1 FETCH (X ").data ++ [lbrace] ++ ("4").data ++ [rbrace] ++ [CR, LF]
        ++ ("a\r\nb)\r\na1 OK done\r\n").data) [] none (("a1").data) =
      rroLoop (("a\r\nb)\r\na1 OK done\r\n").data)
        (("* 1 FETCH (X ").data ++ [lbrace] ++ ("4").data ++ [rbrace] ++ [CR, LF])
        (some 0) (("a1").data) ∧
    (readResponseOnto (("* 1 FETCH (X ").data ++ [lbrace] ++ ("4").data ++ [rbrace]
        ++ [CR, LF] ++ ("a\r\nb)\r\na1 OK done\r\n").data) [] (("a1").data)).1 =
      .ok (("* 1 FETCH (X ").data ++ [lbrace] ++ ("4").data ++ [rbrace] ++ [CR, LF]
        ++ ("a\r\nb)\r\n").data) := by
  constructor
  · have h := c1_incomplete_retries_same_offset
      (("* 1 FETCH (X ").data ++ [lbrace] ++ ("4").data ++ [rbrace] ++ [CR, LF]
        ++ ("a\r\nb)\r\na1 OK done\r\n").data) [] none (("a1").data)
      (("* 1 FETCH (X ").data ++ [lbrace] ++ ("4").data ++ [rbrace] ++ [CR, LF])
      (("a\r\nb)\r\na1 OK done\r\n").data) (by decide) (by decide)
    simpa using h
  · decide

/-- Concatenation of a list of byte chunks. -/
def flatCat : List Bytes → Bytes
  | [] => []
  | x :: xs => x ++ flatCat xs

/-- Spec-side rendering of the tag sequence (spec sections 3 and 8): issuing
commands with the counter at `n` writes lines tagged `a(n+1)`, `a(n+2)`, ….  -/
def expectedLines : Nat → List String → List Bytes
  | _, [] => []
  | n, c :: cs => ((tagStr (n + 1) ++ " " ++ c).data ++ [CR, LF]) :: expectedLines (n + 1) cs

theorem runCommands_spec : ∀ (cmds : List String) (conn : Connection),
    (cmds.foldl runCommand conn).written = conn.written ++ flatCat (expectedLines conn.tag cmds) ∧
    (cmds.foldl runCommand conn).tag = conn.tag + cmds.length ∧
    (cmds.foldl runCommand conn).input = conn.input := by
  intro cmds
  induction cmds with
  | nil => intro conn; simp [expectedLines, flatCat]
  | cons c cs ih =>
    intro conn
    have hrun : runCommand conn c =
        ⟨conn.input, conn.written ++ ((tagStr (conn.tag + 1) ++ " " ++ c).data ++ [CR, LF]),
          conn.tag + 1⟩ := by
      simp [runCommand, createCommand, writeLineS]
    have h := ih (runCommand conn c)
    rw [hrun] at h
    obtain ⟨h1, h2, h3⟩ := h
    refine ⟨?_, ?_, ?_⟩
    · simp only [List.foldl_cons, hrun] at *
      rw [h1]
      simp [expectedLines, flatCat, List.append_assoc]
    · simp only [List.foldl_cons, hrun] at *
      rw [h2]
      simp [List.length_cons]
      omega
    · simp only [List.foldl_cons, hrun] at *
      rw [h3]

/-- C2: over any sequence of commands on one connection the wire carries the
tags in issuance order: starting from counter value `tag`, the lines written
are exactly `a(tag+1) <cmd1>`, `a(tag+2) <cmd2>`, … each followed by CRLF;
`create_command` bumps the counter by exactly one and renders it as `"a"`
followed by the integer; a fresh `Client` starts at `INITIAL_TAG = 0`, so the
first command carries `a1`; and reading a response never changes the counter
or the written log, so the sequence is the same whether each command
succeeds or fails. -/
theorem c2_tag_sequence (conn : Connection) (cmds : List String) :
    ((cmds.foldl runCommand conn).written =
      conn.written ++ flatCat (expectedLines conn.tag cmds)) ∧
    ((cmds.foldl runCommand conn).tag = conn.tag + cmds.length) ∧
    (∀ input, (Client.new input).conn.tag = 0 ∧ INITIAL_TAG = 0) ∧
    (∀ s command, (createCommand s command).1.tag = s.tag + 1 ∧
      (createCommand s command).2 = "a" ++ toString (s.tag + 1) ++ " " ++ command) ∧
    (∀ s dat, (readResponseOntoS s dat).2.tag = s.tag ∧
      (readResponseOntoS s dat).2.written = s.written) := by
  refine ⟨(runCommands_spec cmds conn).1, (runCommands_spec cmds conn).2.1, ?_, ?_, ?_⟩
  · intro input; exact ⟨rfl, rfl⟩
  · intro s command; exact ⟨rfl, rfl⟩
  · intro s dat; exact ⟨rfl, rfl⟩

/-- Witness for C2: two commands on a fresh connection write exactly
`a1 CHECK` and `a2 NOOP`, and the counter ends at 2. -/
theorem c2_tag_sequence_witness :
    ((["CHECK", "NOOP"] : List String).foldl runCommand ⟨[], [], 0⟩).written =
      ("a1 CHECK\r\na2 NOOP\r\n").data ∧
    ((["CHECK", "NOOP"] : List String).foldl runCommand ⟨[], [], 0⟩).tag = 2 := by
  have h := c2_tag_sequence ⟨[], [], 0⟩ ["CHECK", "NOOP"]
  constructor
  · rw [h.1]
    decide
  · rw [h.2.1]
    decide

theorem rroStep_no_validate (data : Bytes) (ls : Nat) (mt : Bytes) (ch : Char) :
    rroStep data ls mt ≠ .finish (.fail (.validate ch)) := by
  unfold rroStep
  cases classify (data.drop ls) with
  | done tg st info =>
    by_cases htg : tg = mt
    · simp only [htg, if_pos rfl]
      cases st <;> simp
    · simp [htg]
  | cont => simp
  | needMore => simp
  | malformed => simp

theorem rroLoopF_no_validate : ∀ (fuel : Nat) (input data : Bytes) (cf : Option Nat)
    (mt : Bytes) (ch : Char), (rroLoopF fuel input data cf mt).1 ≠ .fail (.validate ch) := by
  intro fuel
  induction fuel with
  | zero => intro input data cf mt ch; simp [rroLoopF]
  | succ a ih =>
    intro input data cf mt ch
    cases hr : readline input with
    | none => simp [rroLoopF, hr]
    | some p =>
      obtain ⟨l, r⟩ := p
      cases hs : rroStep (data ++ l) (cf.getD data.length) mt with
      | finish res =>
        simp only [rroLoopF, hr, hs]
        intro hcon
        exact rroStep_no_validate (data ++ l) (cf.getD data.length) mt ch (hcon ▸ hs)
      | again cf2 =>
        simp only [rroLoopF, hr, hs]
        exact ih r (data ++ l) cf2 mt ch

theorem readResponseOnto_no_validate (input data mt : Bytes) (ch : Char) :
    (readResponseOnto input data mt).1 ≠ .fail (.validate ch) := by
  unfold readResponseOnto
  by_cases he : data.isEmpty
  · simp only [he, if_pos rfl]
    exact rroLoopF_no_validate _ input data none mt ch
  · rw [if_neg he]
    cases hs : rroStep data 0 mt with
    | finish res =>
      intro hcon
      simp only at hcon
      exact rroStep_no_validate data 0 mt ch (hcon ▸ hs)
    | again cf2 =>
      simp only
      exact rroLoopF_no_validate _ input data cf2 mt ch

theorem discard_no_validate {o : Outcome Bytes} (ch : Char)
    (h : ∀ ch2, o ≠ .fail (.validate ch2)) : discardData o ≠ .fail (.validate ch) := by
  cases o with
  | ok a => simp [discardData]
  | panicked => simp [discardData]
  | fail e => simpa [discardData] using h ch

/-- C10: `copy` and `uid_copy` interpolate the destination mailbox name
verbatim — no quoting, no CR/LF validation: the bytes written are exactly the
freshly tagged `COPY`/`UID COPY` command with the raw sequence set and name
joined by single spaces, followed by CRLF, whatever characters the name
contains; and no `Validate` error can be returned. -/
theorem c10_copy_verbatim (s : Session) (sequence_set mailbox_name : String) :
    ((Session.copy s sequence_set mailbox_name).2.conn.written =
      s.conn.written ++
        ((tagStr (s.conn.tag + 1) ++ " " ++
          ("COPY " ++ sequence_set ++ " " ++ mailbox_name)).data ++ [CR, LF])) ∧
    ((Session.uid_copy s sequence_set mailbox_name).2.conn.written =
      s.conn.written ++
        ((tagStr (s.conn.tag + 1) ++ " " ++
          ("UID COPY " ++ sequence_set ++ " " ++ mailbox_name)).data ++ [CR, LF])) ∧
    ((Session.copy s sequence_set mailbox_name).2.conn.tag = s.conn.tag + 1) ∧
    ((Session.uid_copy s sequence_set mailbox_name).2.conn.tag = s.conn.tag + 1) ∧
    (∀ ch, (Session.copy s sequence_set mailbox_name).1 ≠ .fail (.validate ch)) ∧
    (∀ ch, (Session.uid_copy s sequence_set mailbox_name).1 ≠ .fail (.validate ch)) := by
  refine ⟨?_, ?_, rfl, rfl, ?_, ?_⟩
  · simp [Session.copy, runCommandAndCheckOk, runCommandAndReadResponse, readResponseS,
      readResponseOntoS, runCommand, createCommand, writeLineS]
  · simp [Session.uid_copy, runCommandAndCheckOk, runCommandAndReadResponse, readResponseS,
      readResponseOntoS, runCommand, createCommand, writeLineS]
  · intro ch
    exact discard_no_validate ch (fun ch2 => readResponseOnto_no_validate _ _ _ ch2)
  · intro ch
    exact discard_no_validate ch (fun ch2 => readResponseOnto_no_validate _ _ _ ch2)

/-- Spec-side rendering of the terminator mapping (spec sections 4.1, 4.2
and 7): an OK terminator returns the accumulated bytes; BAD and NO fail with
`BadResponse` / `NoResponse` carrying the text or the placeholder; any other
terminator status fails with `Parse(Invalid)` carrying everything
accumulated including the terminator line. -/
def terminOutcome (st : Status) (info : Option Bytes) (accum term : Bytes) : Outcome Bytes :=
  match st with
  | .ok => .ok accum
  | .bad => .fail (.badResponse (info.getD defaultExpl))
  | .no => .fail (.noResponse (info.getD defaultExpl))
  | _ => .fail (.parseInvalid (accum ++ term))

theorem rroLoop_accum (matchTag : Bytes) (st : Status) (info : Option Bytes)
    (term extra : Bytes) (hterm : physLine term)
    (hct : classify term = .done matchTag st info) :
    ∀ (us : List Bytes) (data : Bytes), (∀ u ∈ us, physLine u ∧ classify u = .cont) →
      rroLoop (flatCat us ++ (term ++ extra)) data none matchTag =
        (terminOutcome st info (data ++ flatCat us) term, extra) := by
  intro us
  induction us with
  | nil =>
    intro data _
    have hr : readline (flatCat [] ++ (term ++ extra)) = some (term, extra) := by
      simpa [flatCat] using readline_phys term extra hterm
    cases st with
    | ok =>
      have hs : rroStep (data ++ term) ((none : Option Nat).getD data.length) matchTag =
          .finish (.ok data) := by
        simp [rroStep, List.drop_left, List.take_left, hct]
      rw [rroLoop_finish hr hs]
      simp [terminOutcome, flatCat]
    | bad =>
      have hs : rroStep (data ++ term) ((none : Option Nat).getD data.length) matchTag =
          .finish (.fail (.badResponse (info.getD defaultExpl))) := by
        simp [rroStep, List.drop_left, hct]
      rw [rroLoop_finish hr hs]
      simp [terminOutcome, flatCat]
    | no =>
      have hs : rroStep (data ++ term) ((none : Option Nat).getD data.length) matchTag =
          .finish (.fail (.noResponse (info.getD defaultExpl))) := by
        simp [rroStep, List.drop_left, hct]
      rw [rroLoop_finish hr hs]
      simp [terminOutcome, flatCat]
    | preauth =>
      have hs : rroStep (data ++ term) ((none : Option Nat).getD data.length) matchTag =
          .finish (.fail (.parseInvalid (data ++ term))) := by
        simp [rroStep, List.drop_left, hct]
      rw [rroLoop_finish hr hs]
      simp [terminOutcome, flatCat]
    | bye =>
      have hs : rroStep (data ++ term) ((none : Option Nat).getD data.length) matchTag =
          .finish (.fail (.parseInvalid (data ++ term))) := by
        simp [rroStep, List.drop_left, hct]
      rw [rroLoop_finish hr hs]
      simp [terminOutcome, flatCat]
  | cons u us ih =>
    intro data hus
    have hu := hus u (List.mem_cons_self u us)
    have hr : readline (flatCat (u :: us) ++ (term ++ extra)) =
        some (u, flatCat us ++ (term ++ extra)) := by
      have := readline_phys u (flatCat us ++ (term ++ extra)) hu.1
      simpa [flatCat, List.append_assoc] using this
    have hs : rroStep (data ++ u) ((none : Option Nat).getD data.length) matchTag =
        .again none := by
      simp [rroStep, List.drop_left, hu.2]
    rw [rroLoop_again hr hs]
    rw [ih (data ++ u) (fun v hv => hus v (List.mem_cons_of_mem u hv))]
    simp [flatCat, List.append_assoc]

/-- C4: `read_response` (a fresh buffer fed to `read_response_onto`)
accumulates every complete non-terminator line until the terminator for the
in-flight tag; an OK terminator returns exactly the accumulated untagged
bytes with the terminator line excluded (and leaves the rest of the stream
unread); a BAD or NO terminator fails with `BadResponse` / `NoResponse`
carrying the server's explanatory text, or the placeholder
`"no explanation given"` when the terminator carries none. -/
theorem c4_read_response_terminator (matchTag : Bytes) (st : Status) (info : Option Bytes)
    (us : List Bytes) (term extra : Bytes)
    (hus : ∀ u ∈ us, physLine u ∧ classify u = .cont)
    (hterm : physLine term) (hct : classify term = .done matchTag st info) :
    readResponseOnto (flatCat us ++ (term ++ extra)) [] matchTag =
      (terminOutcome st info (flatCat us) term, extra) := by
  have h := rroLoop_accum matchTag st info term extra hterm hct us [] hus
  simpa [readResponseOnto] using h

/-- Witness for C4: an untagged line followed by an OK terminator returns
exactly the untagged bytes; a BAD terminator with no text fails with the
placeholder explanation; a NO terminator with text carries that text. -/
theorem c4_read_response_terminator_witness :
    readResponseOnto (("* X\r\na1 OK yes\r\n").data) [] (("a1").data) =
      (.ok (("* X\r\n").data), []) ∧
    readResponseOnto (("a1 BAD\r\n").data) [] (("a1").data) =
      (.fail (.badResponse (("no explanation given").data)), []) ∧
    readResponseOnto (("* X\r\na1 NO nope\r\n").data) [] (("a1").data) =
      (.fail (.noResponse (("nope").data)), []) := by
  refine ⟨?_, ?_, ?_⟩
  · have h := c4_read_response_terminator (("a1").data) .ok (some (("yes").data))
      [("* X\r\n").data] (("a1 OK yes\r\n").data) []
      (by
        intro u hu
        rw [List.mem_singleton] at hu
        subst hu
        exact ⟨⟨("* X\r").data, by decide, by decide⟩, by decide⟩)
      ⟨("a1 OK yes\r").data, by decide, by decide⟩ (by decide)
    simpa [flatCat, terminOutcome] using h
  · have h := c4_read_response_terminator (("a1").data) .bad none
      [] (("a1 BAD\r\n").data) []
      (by intro u hu; simp at hu)
      ⟨("a1 BAD\r").data, by decide, by decide⟩ (by decide)
    simpa [flatCat, terminOutcome, defaultExpl] using h
  · have h := c4_read_response_terminator (("a1").data) .no (some (("nope").data))
      [("* X\r\n").data] (("a1 NO nope\r\n").data) []
      (by
        intro u hu
        rw [List.mem_singleton] at hu
        subst hu
        exact ⟨⟨("* X\r").data, by decide, by decide⟩, by decide⟩)
      ⟨("a1 NO nope\r").data, by decide, by decide⟩ (by decide)
    simpa [flatCat, terminOutcome] using h

/-- C9: the `assert_eq!` in `read_response_onto` enforces that a well-formed
tagged terminator carries the in-flight tag: when the classification of the
current chunk is a terminator with any other tag the function panics instead
of returning an `Error` variant, and when the tag matches the iteration
finishes without panicking. -/
theorem c9_tag_mismatch_panics (input data : Bytes) (cf : Option Nat)
    (matchTag line rest tg : Bytes) (st : Status) (info : Option Bytes)
    (hread : readline input = some (line, rest))
    (hcl : classify ((data ++ line).drop (cf.getD data.length)) = .done tg st info) :
    (tg ≠ matchTag → rroLoop input data cf matchTag = (.panicked, rest)) ∧
    (tg = matchTag → (rroLoop input data cf matchTag).1 ≠ Outcome.panicked) := by
  constructor
  · intro hne
    exact rroLoop_finish hread (by simp [rroStep, hcl, hne])
  · intro heq
    subst heq
    cases st with
    | ok =>
      have hs : rroStep (data ++ line) (cf.getD data.length) tg =
          .finish (.ok ((data ++ line).take (cf.getD data.length))) := by
        simp [rroStep, hcl]
      rw [rroLoop_finish hread hs]
      simp
    | bad =>
      have hs : rroStep (data ++ line) (cf.getD data.length) tg =
          .finish (.fail (.badResponse (info.getD defaultExpl))) := by
        simp [rroStep, hcl]
      rw [rroLoop_finish hread hs]
      simp
    | no =>
      have hs : rroStep (data ++ line) (cf.getD data.length) tg =
          .finish (.fail (.noResponse (info.getD defaultExpl))) := by
        simp [rroStep, hcl]
      rw [rroLoop_finish hread hs]
      simp
    | preauth =>
      have hs : rroStep (data ++ line) (cf.getD data.length) tg =
          .finish (.fail (.parseInvalid (data ++ line))) := by
        simp [rroStep, hcl]
      rw [rroLoop_finish hread hs]
      simp
    | bye =>
      have hs : rroStep (data ++ line) (cf.getD data.length) tg =
          .finish (.fail (.parseInvalid (data ++ line))) := by
        simp [rroStep, hcl]
      rw [rroLoop_finish hread hs]
      simp

/-- Witness for C9: a well-formed `b1 OK` terminator while the in-flight tag
is `a1` makes the read loop panic; the same line with tag `b1` in flight
finishes without a panic. -/
theorem c9_tag_mismatch_panics_witness :
    rroLoop (("b1 OK x\r\n").data) [] none (("a1").data) = (Outcome.panicked, []) ∧
    (rroLoop (("b1 OK x\r\n").data) [] none (("b1").data)).1 ≠ Outcome.panicked := by
  constructor
  · have h := (c9_tag_mismatch_panics (("b1 OK x\r\n").data) [] none (("a1").data)
      (("b1 OK x\r\n").data) [] (("b1").data) .ok (some (("x").data))
      (by decide) (by decide)).1 (by decide)
    simpa using h
  · exact (c9_tag_mismatch_panics (("b1 OK x\r\n").data) [] none (("b1").data)
      (("b1 OK x\r\n").data) [] (("b1").data) .ok (some (("x").data))
      (by decide) (by decide)).2 rfl

/-- Witness for C10: a destination name containing a space, a double quote
and a CR goes onto the wire byte for byte, and no Validate error arises. -/
theorem c10_copy_verbatim_witness :
    (Session.copy ⟨⟨("a1 OK c\r\n").data, [], 0⟩⟩ ("2:4") ("A B\"\r")).2.conn.written =
      ("a1 COPY 2:4 A B\"\r\r\n").data ∧
    (Session.copy ⟨⟨("a1 OK c\r\n").data, [], 0⟩⟩ ("2:4") ("A B\"\r")).1 ≠
      .fail (.validate '\r') := by
  have h := c10_copy_verbatim ⟨⟨("a1 OK c\r\n").data, [], 0⟩⟩ ("2:4") ("A B\"\r")
  constructor
  · rw [h.1]
    decide
  · exact h.2.2.2.2.1 '\r'

theorem mem_replAll {b a : Char} {r : Bytes} (hba : b ≠ a) (hbr : b ∉ r) :
    ∀ l, b ∈ replAll a r l ↔ b ∈ l := by
  intro l
  induction l with
  | nil => simp [replAll]
  | cons c cs ih =>
    by_cases hc : c = a
    · subst hc
      simp only [replAll, if_pos rfl, List.mem_append, List.mem_cons, ih]
      constructor
      · rintro (hl | hl)
        · exact absurd hl hbr
        · exact Or.inr hl
      · rintro (hl | hl)
        · exact absurd hl hba
        · exact Or.inr hl
    · simp [replAll, hc, ih]

theorem mem_quoteStr {b : Char} (hq : b ≠ '"') (hbs : b ≠ '\\') (s : String) :
    b ∈ (quoteStr s).data ↔ b ∈ s.data := by
  show b ∈ '"' :: (replAll '"' ['\\', '"'] (replAll '\\' ['\\', '\\'] s.data) ++ ['"']) ↔ _
  rw [List.mem_cons, List.mem_append]
  rw [mem_replAll hq (by simp [hq, hbs]), mem_replAll hbs (by simp [hbs])]
  simp [hq]

theorem validate_str_eq (s : String) :
    validate_str s =
      (if '\n' ∈ s.data then .error (.validate '\n')
       else if '\r' ∈ s.data then .error (.validate '\r')
       else .ok (quoteStr s)) := by
  show (if '\n' ∈ (quoteStr s).data then Except.error (Error.validate '\n')
    else if '\r' ∈ (quoteStr s).data then Except.error (Error.validate '\r')
    else Except.ok (quoteStr s)) = _
  simp only [mem_quoteStr (by decide : ('\n' : Char) ≠ '"') (by decide : ('\n' : Char) ≠ '\\') s,
    mem_quoteStr (by decide : ('\r' : Char) ≠ '"') (by decide : ('\r' : Char) ≠ '\\') s]

/-- The character `validate_str` reports for a string containing CR or LF:
LF is checked first, so it wins when both are present. -/
def offendingChar (s : String) : Char :=
  if '\n' ∈ s.data then '\n' else '\r'

/-- C5: a string containing LF or CR makes `validate_str` — and with it every
validating call (`login` username and password, `select`, `examine`,
`status`, `create`, `delete`, `mv`, `uid_mv`) — fail with `Validate` carrying
the offending character, with the connection state (in particular the
written log) untouched, so the failure happens before any byte reaches the
transport; a string containing neither character is returned quoted, wrapped
in double quotes with backslash and double quote escaped. -/
theorem c5_validation (s other password u2 : String) (sess : Session) (c : Client) :
    (('\n' ∈ s.data ∨ '\r' ∈ s.data) →
      (validate_str s = .error (.validate (offendingChar s)) ∧
       Session.select sess s = (.fail (.validate (offendingChar s)), sess) ∧
       Session.examine sess s = (.fail (.validate (offendingChar s)), sess) ∧
       Session.status sess s other = (.fail (.validate (offendingChar s)), sess) ∧
       Session.create sess s = (.fail (.validate (offendingChar s)), sess) ∧
       Session.delete sess s = (.fail (.validate (offendingChar s)), sess) ∧
       Session.mv sess other s = (.fail (.validate (offendingChar s)), sess) ∧
       Session.uid_mv sess other s = (.fail (.validate (offendingChar s)), sess) ∧
       Client.login c s password = .fail (.validate (offendingChar s)) c ∧
       (('\n' ∉ u2.data ∧ '\r' ∉ u2.data) →
         Client.login c u2 s = .fail (.validate (offendingChar s)) c))) ∧
    (('\n' ∉ s.data ∧ '\r' ∉ s.data) → validate_str s = .ok (quoteStr s)) := by
  constructor
  · intro hbad
    have hv : validate_str s = .error (.validate (offendingChar s)) := by
      rw [validate_str_eq, offendingChar]
      by_cases hn : '\n' ∈ s.data
      · simp [hn]
      · rcases hbad with h | h
        · exact absurd h hn
        · simp [hn, h]
    refine ⟨hv, ?_, ?_, ?_, ?_, ?_, ?_, ?_, ?_, ?_⟩
    · simp [Session.select, hv]
    · simp [Session.examine, hv]
    · simp [Session.status, hv]
    · simp [Session.create, hv]
    · simp [Session.delete, hv]
    · simp [Session.mv, hv]
    · simp [Session.uid_mv, hv]
    · simp [Client.login, hv]
    · intro hu2
      have hvu : validate_str u2 = .ok (quoteStr u2) := by
        rw [validate_str_eq]
        simp [hu2.1, hu2.2]
      simp [Client.login, hvu, hv]
  · intro hgood
    rw [validate_str_eq]
    simp [hgood.1, hgood.2]

/-- Witness for C5: a name containing LF fails `select` with `Validate('\n')`
before anything is written; a clean string is quoted. -/
theorem c5_validation_witness :
    Session.select ⟨⟨[], [], 0⟩⟩ ("IN\nBOX") =
      (.fail (.validate '\n'), ⟨⟨[], [], 0⟩⟩) ∧
    Client.login (Client.new []) ("user") ("pa\rss") = .fail (.validate '\r') (Client.new []) ∧
    validate_str ("te\\st\"x") = .ok ("\"te\\\\st\\\"x\"") := by
  have h1 := (c5_validation ("IN\nBOX") ("q") ("p") ("user") ⟨⟨[], [], 0⟩⟩
    (Client.new [])).1 (Or.inl (by decide))
  have h2 := ((c5_validation ("pa\rss") ("q") ("p") ("user") ⟨⟨[], [], 0⟩⟩
    (Client.new [])).1 (Or.inr (by decide))).2.2.2.2.2.2.2.2.2 (by decide)
  have h3 := (c5_validation ("te\\st\"x") ("q") ("p") ("user") ⟨⟨[], [], 0⟩⟩
    (Client.new [])).2 (by decide)
  refine ⟨?_, ?_, ?_⟩
  · have := h1.2.1
    simpa [offendingChar] using this
  · simpa [offendingChar] using h2
  · simpa [quoteStr] using h3

/-- C7: `append` writes the APPEND header with the declared literal length
and then reads exactly one line.  A closed stream fails with
`ConnectionLost`; a line that does not begin with `+` fails with
`Error::Append` with nothing written past the header; a `+` line makes the
content bytes plus CRLF follow the header on the wire, after which the
tagged response is read. -/
theorem c7_append_continuation (s : Session) (folder : String) (content : Bytes) :
    (s.conn.input = [] →
      Session.append s folder content =
        (.fail .connectionLost,
         ⟨⟨[], s.conn.written ++ (tagStr (s.conn.tag + 1) ++ " " ++
            appendCmd folder content.length).data ++ [CR, LF], s.conn.tag + 1⟩⟩)) ∧
    (∀ line rest, readline s.conn.input = some (line, rest) → line.head? ≠ some '+' →
      Session.append s folder content =
        (.fail Error.append,
         ⟨⟨rest, s.conn.written ++ (tagStr (s.conn.tag + 1) ++ " " ++
            appendCmd folder content.length).data ++ [CR, LF], s.conn.tag + 1⟩⟩)) ∧
    (∀ line rest, readline s.conn.input = some (line, rest) → line.head? = some '+' →
      Session.append s folder content =
        (discardData (readResponseS ⟨rest, s.conn.written ++ (tagStr (s.conn.tag + 1) ++ " " ++
            appendCmd folder content.length).data ++ [CR, LF] ++ content ++ [CR, LF],
            s.conn.tag + 1⟩).1,
         ⟨(readResponseS ⟨rest, s.conn.written ++ (tagStr (s.conn.tag + 1) ++ " " ++
            appendCmd folder content.length).data ++ [CR, LF] ++ content ++ [CR, LF],
            s.conn.tag + 1⟩).2⟩)) := by
  refine ⟨?_, ?_, ?_⟩
  · intro he
    simp [Session.append, runCommand, createCommand, writeLineS, he, readline]
  · intro line rest hr hhead
    simp [Session.append, runCommand, createCommand, writeLineS, hr, hhead]
  · intro line rest hr hhead
    simp [Session.append, runCommand, createCommand, writeLineS, hr, hhead]

/-- Witness for C7: a non-continuation first line makes `append` fail with
`Error::Append`, the wire holding exactly the header; a continuation line
lets the literal bytes follow and the tagged OK succeed. -/
theorem c7_append_continuation_witness :
    Session.append ⟨⟨("x\r\n").data, [], 0⟩⟩ ("F") (("AB").data) =
      (.fail Error.append,
       ⟨⟨[], ("a1 APPEND \"F\" ").data ++ [lbrace] ++ ("2").data ++ [rbrace] ++ [CR, LF], 1⟩⟩) ∧
    Session.append ⟨⟨("+ go\r\na1 OK d\r\n").data, [], 0⟩⟩ ("F") (("AB").data) =
      (.ok (),
       ⟨⟨[], ("a1 APPEND \"F\" ").data ++ [lbrace] ++ ("2").data ++ [rbrace] ++ [CR, LF]
          ++ ("AB").data ++ [CR, LF], 1⟩⟩) := by
  constructor
  · have h := (c7_append_continuation ⟨⟨("x\r\n").data, [], 0⟩⟩ ("F") (("AB").data)).2.1
      (("x\r\n").data) [] (by decide) (by decide)
    rw [h]
    decide
  · have h := (c7_append_continuation ⟨⟨("+ go\r\na1 OK d\r\n").data, [], 0⟩⟩ ("F")
      (("AB").data)).2.2 (("+ go\r\n").data) (("a1 OK d\r\n").data) (by decide) (by decide)
    rw [h]
    decide

theorem terminate_done_fixed (h2 : IdleHandle) (hd : h2.done = true) :
    IdleHandle.terminate h2 = (.ok (), h2) := by
  simp [IdleHandle.terminate, hd]

theorem terminate_sets_done (h : IdleHandle) :
    (IdleHandle.terminate h).2.done = true := by
  by_cases hd : h.done
  · simp [IdleHandle.terminate, hd]
  · simp [IdleHandle.terminate, hd]

/-- C8: termination of an `IdleHandle` is idempotent: the first `terminate`
on a live handle writes the untagged `DONE` line (and reads the tagged
response for the pending IDLE tag); every invocation on an already-done
handle — explicit or the drop-time one — is a no-op returning `Ok`, so over
any sequence of invocations the `DONE` line is written and its response
consumed exactly once; the drop-time call discards the result, swallowing
any error. -/
theorem c8_terminate_idempotent (h : IdleHandle) :
    (h.done = false →
      ((IdleHandle.terminate h).2.done = true ∧
       (IdleHandle.terminate h).2.session.conn.written =
         h.session.conn.written ++ ("DONE").data ++ [CR, LF])) ∧
    (∀ h2 : IdleHandle, h2.done = true → IdleHandle.terminate h2 = (.ok (), h2)) ∧
    (∀ n : Nat, (fun x => (IdleHandle.terminate x).2)^[n] ((IdleHandle.terminate h).2) =
      (IdleHandle.terminate h).2) ∧
    (IdleHandle.dropRun h = (IdleHandle.terminate h).2) := by
    refine ⟨?_, terminate_done_fixed, ?_, rfl⟩
    · intro hd
      refine ⟨terminate_sets_done h, ?_⟩
      simp [IdleHandle.terminate, hd, readResponseS, readResponseOntoS, writeLineS]
    · intro n
      induction n with
      | zero => simp
      | succ k ih =>
        rw [Function.iterate_succ_apply]
        have hfix : (IdleHandle.terminate ((IdleHandle.terminate h).2)).2 =
            (IdleHandle.terminate h).2 := by
          rw [terminate_done_fixed _ (terminate_sets_done h)]
        simp only [hfix]
        exact ih

/-- Witness for C8: on a live handle over a stream holding the IDLE OK, the
first termination writes `DONE` and flips the flag; iterated terminations
change nothing further; drop equals best-effort terminate. -/
theorem c8_terminate_idempotent_witness :
    (IdleHandle.terminate ⟨⟨⟨("a1 OK x\r\n").data, [], 1⟩⟩, false⟩).2.done = true ∧
    (IdleHandle.terminate ⟨⟨⟨("a1 OK x\r\n").data, [], 1⟩⟩, false⟩).2.session.conn.written =
      ("DONE").data ++ [CR, LF] ∧
    (fun x => (IdleHandle.terminate x).2)^[2]
      ((IdleHandle.terminate ⟨⟨⟨("a1 OK x\r\n").data, [], 1⟩⟩, false⟩).2) =
      (IdleHandle.terminate ⟨⟨⟨("a1 OK x\r\n").data, [], 1⟩⟩, false⟩).2 ∧
    IdleHandle.dropRun ⟨⟨⟨("a1 OK x\r\n").data, [], 1⟩⟩, false⟩ =
      (IdleHandle.terminate ⟨⟨⟨("a1 OK x\r\n").data, [], 1⟩⟩, false⟩).2 := by
  have h := c8_terminate_idempotent ⟨⟨⟨("a1 OK x\r\n").data, [], 1⟩⟩, false⟩
  refine ⟨(h.1 rfl).1, ?_, h.2.2.1 2, h.2.2.2⟩
  have h2 := (h.1 rfl).2
  simpa using h2

theorem sfxRefl (l : Bytes) : l <:+ l := ⟨[], rfl⟩

theorem sfxTrans {a b c : Bytes} (h1 : a <:+ b) (h2 : b <:+ c) : a <:+ c := by
  obtain ⟨t1, e1⟩ := h1
  obtain ⟨t2, e2⟩ := h2
  exact ⟨t2 ++ t1, by rw [List.append_assoc, e1, e2]⟩

theorem pfxRefl (l : Bytes) : l <+: l := ⟨[], List.append_nil l⟩

theorem pfxExt (a t : Bytes) : a <+: a ++ t := ⟨t, rfl⟩

theorem pfxTrans {a b c : Bytes} (h1 : a <+: b) (h2 : b <+: c) : a <+: c := by
  obtain ⟨t1, e1⟩ := h1
  obtain ⟨t2, e2⟩ := h2
  exact ⟨t1 ++ t2, by rw [← List.append_assoc, e1, e2]⟩

theorem rroLoopF_snd_sfx : ∀ (fuel : Nat) (input data : Bytes) (cf : Option Nat) (mt : Bytes),
    (rroLoopF fuel input data cf mt).2 <:+ input := by
  intro fuel
  induction fuel with
  | zero => intro input data cf mt; simp [rroLoopF]
  | succ a ih =>
    intro input data cf mt
    cases hr : readline input with
    | none => simp [rroLoopF, hr]
    | some p =>
      obtain ⟨l, r⟩ := p
      have hsub : r <:+ input := ⟨l, (readline_split hr).1.symm⟩
      cases hs : rroStep (data ++ l) (cf.getD data.length) mt with
      | finish res => simpa [rroLoopF, hr, hs] using hsub
      | again cf2 =>
        simp only [rroLoopF, hr, hs]
        exact sfxTrans (ih r (data ++ l) cf2 mt) hsub

theorem readResponseOnto_snd_sfx (input data mt : Bytes) :
    (readResponseOnto input data mt).2 <:+ input := by
  unfold readResponseOnto
  by_cases he : data.isEmpty
  · rw [if_pos he]
    exact rroLoopF_snd_sfx _ input data none mt
  · rw [if_neg he]
    cases hs : rroStep data 0 mt with
    | finish res => exact sfxRefl input
    | again cf2 => exact rroLoopF_snd_sfx _ input data cf2 mt

theorem doAuthHandshake_fail_inv : ∀ (fuel : Nat) (conn : Connection)
    (authenticator : Bytes → Bytes) (e : Error) (c2 : Client),
    doAuthHandshake fuel conn authenticator = .fail e c2 →
    c2.conn.input <:+ conn.input ∧ conn.written <+: c2.conn.written := by
  intro fuel
  induction fuel with
  | zero =>
    intro conn authenticator e c2 h
    simp only [doAuthHandshake] at h
    obtain ⟨_, h2⟩ := AuthResult.fail.inj h
    subst h2
    exact ⟨sfxRefl _, pfxRefl _⟩
  | succ a ih =>
    intro conn authenticator e c2 h
    simp only [doAuthHandshake] at h
    cases hr : readlineS conn with
    | none =>
      simp only [hr] at h
      obtain ⟨_, h2⟩ := AuthResult.fail.inj h
      subst h2
      exact ⟨sfxRefl _, pfxRefl _⟩
    | some p =>
      obtain ⟨line, conn2⟩ := p
      simp only [hr] at h
      have hconn2 : conn2.input <:+ conn.input ∧ conn2.written = conn.written := by
        unfold readlineS at hr
        cases hrr : readline conn.input with
        | none => rw [hrr] at hr; simp at hr
        | some q =>
          obtain ⟨l, r⟩ := q
          rw [hrr] at hr
          simp only [Option.some.injEq, Prod.mk.injEq] at hr
          obtain ⟨_, hc⟩ := hr
          subst hc
          exact ⟨⟨l, (readline_split hrr).1.symm⟩, rfl⟩
      by_cases hh : line.head? = some '+'
      · rw [if_pos hh] at h
        cases hp : parse_authenticate_response line with
        | error e2 =>
          simp only [hp] at h
          obtain ⟨_, h2⟩ := AuthResult.fail.inj h
          subst h2
          exact ⟨hconn2.1, by rw [← hconn2.2]⟩
        | ok dat =>
          simp only [hp] at h
          have hrec := ih (writeLineS conn2 (authenticator dat)) authenticator e c2 h
          refine ⟨sfxTrans hrec.1 hconn2.1, ?_⟩
          have : conn.written <+: (writeLineS conn2 (authenticator dat)).written := by
            rw [writeLineS, hconn2.2]
            exact pfxTrans (pfxExt _ _) (pfxExt _ _)
          exact pfxTrans this hrec.2
      · rw [if_neg hh] at h
        cases ho : (readResponseOntoS conn2 line).1 with
        | ok dat =>
          simp only [ho] at h
          exact AuthResult.noConfusion h
        | panicked =>
          simp only [ho] at h
          exact AuthResult.noConfusion h
        | fail e2 =>
          simp only [ho] at h
          obtain ⟨_, h2⟩ := AuthResult.fail.inj h
          subst h2
          refine ⟨?_, ?_⟩
          · show (readResponseOntoS conn2 line).2.input <:+ conn.input
            have : (readResponseOntoS conn2 line).2.input <:+ conn2.input := by
              unfold readResponseOntoS
              exact readResponseOnto_snd_sfx _ _ _
            exact sfxTrans this hconn2.1
          · show conn.written <+: (readResponseOntoS conn2 line).2.written
            have h3 : (readResponseOntoS conn2 line).2.written = conn2.written := rfl
            rw [h3, hconn2.2]

theorem validate_no_validate_from_response (input data mt : Bytes) (ch : Char) :
    (readResponseOnto input data mt).1 ≠ .fail (.validate ch) :=
  readResponseOnto_no_validate input data mt ch

/-- C3: a failing `login` or `authenticate` returns the error paired with
the unauthenticated `Client`, whose connection survives: the returned
client's unread stream is a suffix of the original stream (the same
connection, advanced) and its written log extends the original one, so the
caller can retry without reconnecting; and a `Validate` failure of `login`
returns the client completely untouched.  (On success the `Client` is
consumed by the signature and a `Session` carrying the connection is
produced.) -/
theorem c3_failure_returns_client (c : Client) (username password auth_type : String)
    (authenticator : Bytes → Bytes) :
    (∀ e c2, Client.login c username password = .fail e c2 →
      c2.conn.input <:+ c.conn.input ∧ c.conn.written <+: c2.conn.written ∧
      (∀ ch, e = .validate ch → c2 = c)) ∧
    (∀ e c2, Client.authenticate c auth_type authenticator = .fail e c2 →
      c2.conn.input <:+ c.conn.input ∧ c.conn.written <+: c2.conn.written) := by
  constructor
  · intro e c2 h
    unfold Client.login at h
    cases hu : validate_str username with
    | error eu =>
      simp only [hu] at h
      obtain ⟨he, h2⟩ := AuthResult.fail.inj h
      subst h2
      exact ⟨sfxRefl _, pfxRefl _, fun _ _ => rfl⟩
    | ok uq =>
      simp only [hu] at h
      cases hp : validate_str password with
      | error ep =>
        simp only [hp] at h
        obtain ⟨he, h2⟩ := AuthResult.fail.inj h
        subst h2
        exact ⟨sfxRefl _, pfxRefl _, fun _ _ => rfl⟩
      | ok pq =>
        simp only [hp] at h
        cases ho : (runCommandAndReadResponse c.conn ("LOGIN " ++ uq ++ " " ++ pq)).1 with
        | ok dat =>
          simp only [ho] at h
          exact AuthResult.noConfusion h
        | panicked =>
          simp only [ho] at h
          exact AuthResult.noConfusion h
        | fail e2 =>
          simp only [ho] at h
          obtain ⟨he, h2⟩ := AuthResult.fail.inj h
          subst h2
          subst he
          refine ⟨?_, ?_, ?_⟩
          · show (runCommandAndReadResponse c.conn _).2.input <:+ c.conn.input
            unfold runCommandAndReadResponse readResponseS readResponseOntoS
            exact readResponseOnto_snd_sfx _ _ _
          · show c.conn.written <+: (runCommandAndReadResponse c.conn _).2.written
            have : (runCommandAndReadResponse c.conn ("LOGIN " ++ uq ++ " " ++ pq)).2.written =
                (runCommand c.conn ("LOGIN " ++ uq ++ " " ++ pq)).written := rfl
            rw [this]
            show c.conn.written <+: c.conn.written ++ _ ++ _
            exact pfxTrans (pfxExt _ _) (pfxExt _ _)
          · intro ch hch
            subst hch
            exact absurd ho (readResponseOnto_no_validate _ _ _ ch)
  · intro e c2 h
    unfold Client.authenticate at h
    have hinv := doAuthHandshake_fail_inv _ _ authenticator e c2 h
    refine ⟨hinv.1, ?_⟩
    have : c.conn.written <+: (runCommand c.conn ("AUTHENTICATE " ++ auth_type)).written := by
      show c.conn.written <+: c.conn.written ++ _ ++ _
      exact pfxTrans (pfxExt _ _) (pfxExt _ _)
    exact pfxTrans this hinv.2

/-- Witness for C3: a LF in the username fails `login` with the client
returned untouched; a NO terminator fails `authenticate` with the client
still holding the connection (written log extended by the command). -/
theorem c3_failure_returns_client_witness :
    (Client.new (("a1 NO x\r\n").data)) = (Client.new (("a1 NO x\r\n").data)) ∧
    ([] : Bytes) <:+ (("a1 NO x\r\n").data) ∧
    ([] : Bytes) <+: (("a1 AUTHENTICATE PLAIN\r\n").data) := by
  have hlog := (c3_failure_returns_client (Client.new (("a1 NO x\r\n").data))
    ("u\nv") ("p") ("PLAIN") (fun d => d)).1 (.validate '\n')
    (Client.new (("a1 NO x\r\n").data)) (by decide)
  have hauth := (c3_failure_returns_client (Client.new (("a1 NO x\r\n").data))
    ("u\nv") ("p") ("PLAIN") (fun d => d)).2 (.noResponse (("x").data))
    ⟨⟨[], ("a1 AUTHENTICATE PLAIN\r\n").data, 1⟩⟩ (by decide)
  exact ⟨hlog.2.2 '\n' rfl, hauth.1, hauth.2⟩

/-- C6 (the code as written): the regex of `parse_authenticate_response` is
missing the escape of the continuation marker, so the payload handed to the
authenticator is the whole line minus the trailing CRLF — the leading `+` is
NOT stripped — and the handshake writes back the authenticator's response to
that marker-bearing payload; a line with no CRLF yields
`Parse(Authentication)`. -/
theorem c6_marker_not_stripped :
    parse_authenticate_response (("+ abc\r\n").data) = .ok (("+ abc").data) ∧
    parse_authenticate_response (("+ abc\r\n").data) ≠ .ok ((" abc").data) ∧
    parse_authenticate_response (("+ abc\r\n").data) ≠ .ok (("abc").data) ∧
    parse_authenticate_response (("+abc").data ++ [LF]) =
      .error (.parseAuth (("+abc").data ++ [LF])) ∧
    Client.authenticate (Client.new (("+ abc\r\na1 OK done\r\n").data)) ("PLAIN")
      (fun d => d) =
      .ok ⟨⟨[], ("a1 AUTHENTICATE PLAIN\r\n").data ++ ("+ abc").data ++ [CR, LF], 1⟩⟩ := by
  refine ⟨by decide, by decide, by decide, by decide, by decide⟩

end Imap
